import Mathlib

/-!
Verification of the regex parser and railroad-diagram layout engine of
regex-railroad.nvim, via a shallow embedding of `src/parser.rs`,
`src/railroad/renderer.rs`, `src/railroad/draw.rs` and `src/error.rs`.

The parser mutates a cursor (`idx`) into the input string; the embedding
passes an explicit state holding the *remaining* characters (always equal
to `text.drop idx` in the source) together with the numeric index.  The
source's `more()` compares the *byte* length of the input with the char
index; the two coincide on ASCII inputs, which every claim uses.

Rust `.unwrap()` / out-of-bounds indexing aborts the process; the
embedding makes that outcome explicit as `POut.panic`.  Recursion in the
source is unbounded (and genuinely diverges on some inputs, e.g. a lone
`}`), so every parsing function takes a fuel argument; exhausted fuel is
the separate outcome `POut.oof`, which no theorem ever equates with a
source behaviour.

`u32` arithmetic in `repetition_group` is modelled with wrapping
(`% 2^32`), the release-build semantics of the plugin.
-/

namespace RegexRailroad

/-- `Error` from `src/error.rs` (the variants reachable from the parser and
renderer).  `invalidCharacter` is referenced by `RegExParser::group` in
`src/parser.rs` (line 220) although `src/error.rs` does not declare it; it
is modelled from that use site: the offending character plus the cursor. -/
inductive Error where
  | characterRange (a b : Char)
  | stringIterator (a b : Char)
  | repetitionValue (c : Char)
  | invalidCharacter (c : Char) (idx : Nat)
  | invalidParsing
  deriving DecidableEq, Repr

/-- `RepetitionType` from `src/parser.rs`. -/
inductive RepetitionType where
  | orMore (n : Nat)
  | zeroOrOne
  | exactly (n : Nat)
  | between (n m : Nat)
  deriving DecidableEq, Repr

/-- `MetaCharacter` from `src/parser.rs`. -/
inductive MetaCharacter where
  | word (b : Bool)
  | digit (b : Bool)
  | whitespace (b : Bool)
  | any
  deriving DecidableEq, Repr

/-- `AnchorType` from `src/parser.rs`. -/
inductive AnchorType where
  | start
  | end'
  | wordBoundary
  | notWordBoundary
  deriving DecidableEq, Repr

/-- `CharacterType` from `src/parser.rs`. -/
inductive CharacterType where
  | any (v : List CharacterType)
  | not (v : List CharacterType)
  | between (a b : CharacterType)
  | terminal (c : Char)
  | meta (m : MetaCharacter)
  deriving Repr

/-- `RegEx` from `src/parser.rs`. -/
inductive RegEx where
  | element (v : List RegEx)
  | repetition (r : RepetitionType) (b : RegEx)
  | alternation (v : List RegEx)
  | character (c : CharacterType)
  | anchor (a : AnchorType)
  | terminal (s : String)
  | capture (name : Option String) (idx : Nat) (b : RegEx)
  deriving Repr

/-- Parser state: `rest` is `text.drop idx` of `RegExParser`; `idx` and
`captureGroup` are the struct's cursor and counter; `esc` is the
language's escape character (`'\\'` for every supported language in
`src/extract.rs`). -/
structure PState where
  rest : List Char
  idx : Nat
  captureGroup : Nat
  esc : Char
  deriving DecidableEq, Repr

/-- Outcome of a parsing function: `Ok` value with updated state, a
recoverable `Err`, a Rust panic (`.unwrap()` failure or out-of-bounds
`peek`), or fuel exhaustion (a modelling artefact for the source's
unbounded recursion). -/
inductive POut (α : Type) where
  | ok (a : α) (s : PState)
  | err (e : Error)
  | panic
  | oof
  deriving DecidableEq, Repr

/-- `SPECIAL_CHARS` from `src/parser.rs`. -/
def specialChars : List Char := ['(', ')', '[', ']', '+', '*', '$', '|', '^', '{', '}']

/-- The `'0'..='9'` range pattern. -/
def isDigitC (c : Char) : Bool := '0' ≤ c && c ≤ '9'

/-- The `'a'..='z'` range pattern. -/
def isLowerC (c : Char) : Bool := 'a' ≤ c && c ≤ 'z'

/-- The `'A'..='Z'` range pattern. -/
def isUpperC (c : Char) : Bool := 'A' ≤ c && c ≤ 'Z'

/-- `char::to_digit(10)` on a decimal digit. -/
def digitVal (c : Char) : Nat := c.toNat - '0'.toNat

/-- Advance the cursor past one character whose tail is `t`
(`RegExParser::consume` on a matching character). -/
def PState.adv (s : PState) (t : List Char) : PState :=
  { s with rest := t, idx := s.idx + 1 }

/-- `u32` wrapping step of `min_count * 10 + digit`. -/
def u32step (acc : Nat) (c : Char) : Nat := (acc * 10 + digitVal c) % 4294967296

/-- The `max_count` update of `repetition_group`'s second loop:
`Some(10 * count + digit)` on `Some`, `Some(digit)` on `None`
(`u32` wrapping). -/
def maxStep (maxc : Option Nat) (c : Char) : Option Nat :=
  some (match maxc with
        | some count => (10 * count + digitVal c) % 4294967296
        | none => digitVal c)

/-- Positional accumulation `value = value * 10 + digit` over a digit
string, starting from 0. -/
def digitsVal (ds : List Char) : Nat := List.foldl u32step 0 ds

/-- Tail of `repetition_group`: optionally consume the closing `'}'` and
select the `RepetitionType` from the numbers found. -/
def repFinish (minc : Nat) (maxc : Option Nat) (twoNum : Bool) (s : PState) :
    POut RepetitionType :=
  let s' := match s.rest with
            | '}' :: t => s.adv t
            | _ => s
  match maxc with
  | some m => .ok (.between minc m) s'
  | none => if twoNum then .ok (.orMore minc) s' else .ok (.exactly minc) s'

mutual

/-- `RegExParser::alternation`. -/
def alternation : Nat → PState → POut RegEx
  | 0, _ => .oof
  | fuel + 1, s =>
    match elemLoop fuel [] s with
    | .ok e1 s1 =>
      match s1.rest with
      | '|' :: _ => altLoop fuel [e1] s1
      | _ => .ok e1 s1
    | .err e => .err e
    | .panic => .panic
    | .oof => .oof

/-- The `while more && peek == '|'` loop of `RegExParser::alternation`,
with the accumulated branch vector `v`. -/
def altLoop : Nat → List RegEx → PState → POut RegEx
  | 0, _, _ => .oof
  | fuel + 1, v, s =>
    match s.rest with
    | '|' :: t =>
      match elemLoop fuel [] (s.adv t) with
      | .ok e s2 => altLoop fuel (v ++ [e]) s2
      | .err e => .err e
      | .panic => .panic
      | .oof => .oof
    | _ => .ok (.alternation v) s

/-- `RegExParser::element`: the `while more && peek != ')' && peek != '|'`
loop with its accumulated vector `v`. -/
def elemLoop : Nat → List RegEx → PState → POut RegEx
  | 0, _, _ => .oof
  | fuel + 1, v, s =>
    match s.rest with
    | [] => .ok (.element v) s
    | c :: _ =>
      if c = ')' ∨ c = '|' then .ok (.element v) s
      else
        match repetition fuel s with
        | .ok r s' => elemLoop fuel (v ++ [r]) s'
        | .err e => .err e
        | .panic => .panic
        | .oof => .oof

/-- `RegExParser::repetition`. -/
def repetition : Nat → PState → POut RegEx
  | 0, _ => .oof
  | fuel + 1, s =>
    match group fuel s with
    | .ok b s' =>
      match s'.rest with
      | '*' :: t => .ok (.repetition (.orMore 0) b) (s'.adv t)
      | '+' :: t => .ok (.repetition (.orMore 1) b) (s'.adv t)
      | '?' :: t => .ok (.repetition .zeroOrOne b) (s'.adv t)
      | '{' :: _ =>
        match repetitionGroup fuel s' with
        | .ok rt s2 => .ok (.repetition rt b) s2
        | .err e => .err e
        | .panic => .panic
        | .oof => .oof
      | _ => .ok b s'
    | .err e => .err e
    | .panic => .panic
    | .oof => .oof

/-- `RegExParser::repetition_group`: `consume('{')?` then the two
digit-accumulating loops. -/
def repetitionGroup : Nat → PState → POut RepetitionType
  | 0, _ => .oof
  | fuel + 1, s =>
    match s.rest with
    | '{' :: t => repLoop1 fuel 0 (s.adv t)
    | c :: _ => .err (.stringIterator '{' c)
    | [] => .panic

/-- First loop of `repetition_group` (minimum count). -/
def repLoop1 : Nat → Nat → PState → POut RepetitionType
  | 0, _, _ => .oof
  | fuel + 1, minc, s =>
    match s.rest with
    | [] => repFinish minc none false s
    | c :: t =>
      if c = '}' then repFinish minc none false s
      else if isDigitC c then repLoop1 fuel (u32step minc c) (s.adv t)
      else if c = ',' then repLoop2 fuel minc none true (s.adv t)
      else .err (.repetitionValue c)

/-- Second loop of `repetition_group` (maximum count). -/
def repLoop2 : Nat → Nat → Option Nat → Bool → PState → POut RepetitionType
  | 0, _, _, _, _ => .oof
  | fuel + 1, minc, maxc, twoNum, s =>
    match s.rest with
    | [] => repFinish minc maxc twoNum s
    | c :: t =>
      if c = '}' then repFinish minc maxc twoNum s
      else if isDigitC c then repLoop2 fuel minc (maxStep maxc c) twoNum (s.adv t)
      else .err (.repetitionValue c)

/-- `RegExParser::group`. -/
def group : Nat → PState → POut RegEx
  | 0, _ => .oof
  | fuel + 1, s =>
    match s.rest with
    | [] => .panic
    | '(' :: t =>
      let s1 := s.adv t
      match s1.rest with
      | [] => .panic
      | '?' :: t2 =>
        let s2 := s1.adv t2
        match s2.rest with
        | [] => .panic
        | ':' :: t3 =>
          -- Unnamed capture group
          let s3 := { s2.adv t3 with captureGroup := s2.captureGroup + 1 }
          match alternation fuel s3 with
          | .ok a s4 =>
            -- `self.consume(')').unwrap()`
            match s4.rest with
            | ')' :: t4 => .ok (.capture none s3.captureGroup a) (s4.adv t4)
            | _ => .panic
          | .err e => .err e
          | .panic => .panic
          | .oof => .oof
        | '<' :: t3 =>
          -- Named capture group
          match nameLoop fuel "" (s2.adv t3) with
          | .ok name s4 =>
            match s4.rest with
            | '>' :: t4 =>
              let s5 := { s4.adv t4 with captureGroup := s4.captureGroup + 1 }
              match alternation fuel s5 with
              | .ok a s6 =>
                match s6.rest with
                | ')' :: t6 => .ok (.capture (some name) s5.captureGroup a) (s6.adv t6)
                | _ => .panic
              | .err e => .err e
              | .panic => .panic
              | .oof => .oof
            | c :: _ => .err (.stringIterator '>' c)
            | [] => .panic
          | .err e => .err e
          | .panic => .panic
          | .oof => .oof
        | _ :: _ => .err (.invalidCharacter '?' s2.idx)
      | _ :: _ =>
        match alternation fuel s1 with
        | .ok a s4 =>
          match s4.rest with
          | ')' :: t4 => .ok a (s4.adv t4)
          | _ => .panic
        | .err e => .err e
        | .panic => .panic
        | .oof => .oof
    | '[' :: t =>
      match character fuel (s.adv t) with
      | .ok a s2 =>
        -- `self.consume(']').unwrap()`
        match s2.rest with
        | ']' :: t2 => .ok (.character a) (s2.adv t2)
        | _ => .panic
      | .err e => .err e
      | .panic => .panic
      | .oof => .oof
    | '\\' :: t =>
      let s1 := s.adv t
      match s1.rest with
      | [] => .panic
      | c :: t2 =>
        let s2 := s1.adv t2
        if c = 'w' then .ok (.character (.meta (.word true))) s2
        else if c = 'W' then .ok (.character (.meta (.word false))) s2
        else if c = 'd' then .ok (.character (.meta (.digit true))) s2
        else if c = 'D' then .ok (.character (.meta (.digit false))) s2
        else if c = 's' then .ok (.character (.meta (.whitespace true))) s2
        else if c = 'S' then .ok (.character (.meta (.whitespace false))) s2
        else .ok (.terminal (String.singleton c)) s2
    | '^' :: t => .ok (.anchor .start) (s.adv t)
    | '$' :: t => .ok (.anchor .end') (s.adv t)
    | '.' :: t => .ok (.character (.meta .any)) (s.adv t)
    | _ :: _ => litLoop fuel "" s

/-- The name-accumulating `while more && peek != '>'` loop of the named
capture branch of `group`. -/
def nameLoop : Nat → String → PState → POut String
  | 0, _, _ => .oof
  | fuel + 1, acc, s =>
    match s.rest with
    | [] => .ok acc s
    | c :: t =>
      if c = '>' then .ok acc s
      else nameLoop fuel (acc.push c) (s.adv t)

/-- The literal-run loop of `group`: copy characters until a special
character, stripping the language's escape character. -/
def litLoop : Nat → String → PState → POut RegEx
  | 0, _, _ => .oof
  | fuel + 1, acc, s =>
    match s.rest with
    | [] => .ok (.terminal acc) s
    | c :: t =>
      if specialChars.contains c then .ok (.terminal acc) s
      else if c = s.esc then
        -- consume the escape, then `string.push(self.next()?)`
        match t with
        | [] => .panic
        | c2 :: t2 => litLoop fuel (acc.push c2) { s with rest := t2, idx := s.idx + 2 }
      else litLoop fuel (acc.push c) (s.adv t)

/-- `RegExParser::character`. -/
def character : Nat → PState → POut CharacterType
  | 0, _ => .oof
  | fuel + 1, s =>
    match s.rest with
    | [] => .panic
    | '^' :: t => charLoop fuel false [] (s.adv t)
    | _ :: _ => charLoop fuel true [] s

/-- The member-accumulating `while more && peek != ']'` loop of
`character`; `matchChar` mirrors the `match_char` flag. -/
def charLoop : Nat → Bool → List CharacterType → PState → POut CharacterType
  | 0, _, _, _ => .oof
  | fuel + 1, matchChar, v, s =>
    match s.rest with
    | [] => .ok (if matchChar then .any v else .not v) s
    | c :: _ =>
      if c = ']' then .ok (if matchChar then .any v else .not v) s
      else
        match nextCharacter fuel s with
        | .ok ct s' => charLoop fuel matchChar (v ++ [ct]) s'
        | .err e => .err e
        | .panic => .panic
        | .oof => .oof

/-- `RegExParser::next_character`. -/
def nextCharacter : Nat → PState → POut CharacterType
  | 0, _ => .oof
  | fuel + 1, s =>
    match s.rest with
    | [] => .panic
    | c :: t =>
      if isDigitC c then
        rangeTail fuel isDigitC c (s.adv t)
      else if isLowerC c then
        rangeTail fuel isLowerC c (s.adv t)
      else if isUpperC c then
        rangeTail fuel isUpperC c (s.adv t)
      else if c = '\\' then
        let s1 := s.adv t
        match s1.rest with
        | [] => .panic
        | c2 :: t2 =>
          if c2 = 'w' then afterCharCheck fuel (.meta (.word true)) (s1.adv t2)
          else if c2 = 'W' then afterCharCheck fuel (.meta (.word false)) (s1.adv t2)
          else if c2 = 'd' then afterCharCheck fuel (.meta (.digit true)) (s1.adv t2)
          else if c2 = 'D' then afterCharCheck fuel (.meta (.digit false)) (s1.adv t2)
          else if c2 = 's' then afterCharCheck fuel (.meta (.whitespace true)) (s1.adv t2)
          else if c2 = 'S' then afterCharCheck fuel (.meta (.whitespace false)) (s1.adv t2)
          -- the fall-through keeps the cursor on the escaped character
          else afterCharCheck fuel (.terminal '\\') s1
      else
        afterCharCheck fuel (.terminal c) (s.adv t)

/-- The shared shape of the three class-range branches of
`next_character` (`digit_a`/`letter_a`/`capital_a`): after consuming the
first endpoint, a `'-'` demands a second endpoint of the same class
(`inClass`), else `Error::CharacterRange` names both endpoints. -/
def rangeTail : Nat → (Char → Bool) → Char → PState → POut CharacterType
  | 0, _, _, _ => .oof
  | fuel + 1, inClass, a, s =>
    match s.rest with
    | [] => .panic
    | '-' :: t2 =>
      let s2 := s.adv t2
      match s2.rest with
      | [] => .panic
      | b :: t3 =>
        if inClass b then
          afterCharCheck fuel (.between (.terminal a) (.terminal b)) (s2.adv t3)
        else .err (.characterRange a b)
    | _ :: _ => afterCharCheck fuel (.terminal a) s

/-- The trailing `if self.peek() == '-'` check of `next_character`: a dash
whose successor is not `']'` chains a `Between` onto the recursive call
(made with the cursor still on the dash). -/
def afterCharCheck : Nat → CharacterType → PState → POut CharacterType
  | 0, _, _ => .oof
  | fuel + 1, ct, s =>
    match s.rest with
    | [] => .panic
    | '-' :: t2 =>
      if t2.head? = some ']' then .ok ct s
      else
        match nextCharacter fuel s with
        | .ok c2 s2 => .ok (.between ct c2) s2
        | .err e => .err e
        | .panic => .panic
        | .oof => .oof
    | _ :: _ => .ok ct s

end

/-- `RegExParser::element` (the loop body is `elemLoop`). -/
def element (fuel : Nat) (s : PState) : POut RegEx := elemLoop fuel [] s

/-- `RegExParser::parse` on an input string, with ample fuel and the
escape character `'\\'` shared by every supported language. -/
def parse (text : List Char) : POut RegEx :=
  alternation (10 * text.length + 10) ⟨text, 0, 0, '\\'⟩

/-!
## Layout nodes (`src/railroad/renderer.rs`)

The heterogeneous `Box<dyn Draw>` tree is embedded as the closed type
`Node`, one constructor per `Draw` implementor, and the trait methods
become recursive functions.  A `String`'s `.length` in Lean counts
Unicode scalar values, exactly as the source's `.chars().count()`.
-/

/-- The `Draw` implementors of `src/railroad/renderer.rs` as a closed
tree: `Start`, `End`, `Terminal`, `Anchor`, `Sequence`, `Repetition`,
`Optional`, `Choice`, `Stack`, `Capture`. -/
inductive Node where
  | start
  | end'
  | terminal (text : String)
  | anchor (text : String)
  | sequence (children : List Node)
  | repetition (inner : Node) (r : RepetitionType)
  | optional (inner : Node)
  | choice (inner : List Node)
  | stack (invert : Bool) (characters : List String)
  | capture (inner : Node) (name : String)
  deriving Repr

/-- `repeat` from `src/railroad/renderer.rs`: `character` repeated `n`
times as a string. -/
def repeatC (character : Char) (n : Nat) : String :=
  String.mk (List.replicate n character)

/-- `H_PADDING` from `src/railroad/renderer.rs`. -/
def H_PADDING : Nat := 2

/-! The box-drawing glyphs of `src/railroad/sym.rs`. -/
namespace sym

def START : Char := '╟'
def END : Char := '╢'
def CROSS : Char := '┼'
def J_LEFT : Char := '┤'
def J_RIGHT : Char := '├'
def J_UP : Char := '┴'
def J_DOWN : Char := '┬'
def L_HORZ : Char := '─'
def L_HORZ_D : Char := '╌'
def L_VERT : Char := '│'
def L_VERT_D : Char := '┆'
def L_HORZ_B : Char := '━'
def C_TL_SQR : Char := '┌'
def C_TR_SQR : Char := '┐'
def C_BL_SQR : Char := '└'
def C_BR_SQR : Char := '┘'
def C_TL_SQR_B : Char := '┏'
def C_TR_SQR_B : Char := '┓'
def C_BL_SQR_B : Char := '┗'
def C_BR_SQR_B : Char := '┛'
def C_TL_RND : Char := '╭'
def C_TR_RND : Char := '╮'
def C_BL_RND : Char := '╰'
def C_BR_RND : Char := '╯'
def J_LEFT_B : Char := '┨'
def J_RIGHT_B : Char := '┠'

end sym

/-- A single glyph as a string (`format!("{}", c)` on a `char`). -/
def glyph (c : Char) : String := String.singleton c

mutual

/-- `Draw::height` of each node (`max_height`/`total_height` over
children mirror the `DrawGroup` iterator extensions of
`src/railroad/draw.rs`). -/
def Node.height : Node → Nat
  | .start => 1
  | .end' => 1
  | .terminal _ => 3
  | .anchor _ => 3
  | .sequence cs => Node.maxHeight cs
  | .repetition inner _ => inner.height + 1
  | .optional inner => inner.height + 1
  | .choice cs => Node.totalHeight cs
  | .stack _ characters => characters.length + 3
  | .capture inner _ => inner.height + 1

/-- `DrawGroup::max_height`: `max()` with `unwrap_or_default()`. -/
def Node.maxHeight : List Node → Nat
  | [] => 0
  | n :: ns => max n.height (Node.maxHeight ns)

/-- `DrawGroup::total_height`. -/
def Node.totalHeight : List Node → Nat
  | [] => 0
  | n :: ns => n.height + Node.totalHeight ns

end

mutual

/-- `Draw::width` of each node. -/
def Node.width : Node → Nat
  | .start => 6
  | .end' => 1
  | .terminal text => text.length + 4
  | .anchor text => text.length + 2
  | .sequence cs => Node.maxWidth cs
  | .repetition inner _ => inner.width + 4
  | .optional inner => inner.width + 4
  | .choice cs => Node.maxWidth cs
  | .stack _ characters =>
    max ((characters.map String.length).foldr max 0 + 2) 9
  | .capture inner _ => inner.width + 4

/-- `DrawGroup::max_width`. -/
def Node.maxWidth : List Node → Nat
  | [] => 0
  | n :: ns => max n.width (Node.maxWidth ns)

end

mutual

/-- `Draw::entry_height` of each node. -/
def Node.entryHeight : Node → Nat
  | .start => 0
  | .end' => 0
  | .terminal _ => 1
  | .anchor _ => 1
  | .sequence cs => Node.maxEntryHeight cs
  | .repetition inner _ => inner.entryHeight
  | .optional inner => inner.entryHeight + 1
  | .choice cs => (Node.totalHeight cs - 1) / 2
  | .stack _ characters => (characters.length + 3) / 2
  | .capture inner _ => inner.entryHeight + 1

/-- `DrawGroup::max_entry_height`. -/
def Node.maxEntryHeight : List Node → Nat
  | [] => 0
  | n :: ns => max n.entryHeight (Node.maxEntryHeight ns)

end

/-- A run of spaces. -/
def spaces (n : Nat) : String := repeatC ' ' n

/-- The repetition-count description string of `Repetition::draw`
(`" N+ "`, `" N "`, `" N-M "`); `ZeroOrOne` hits the source's `panic!`,
modelled as `none`. -/
def repetitionDescription : RepetitionType → Option String
  | .orMore n => some (" " ++ toString n ++ "+ ")
  | .exactly n => some (" " ++ toString n ++ " ")
  | .between n m => some (" " ++ toString n ++ "-" ++ toString m ++ " ")
  | .zeroOrOne => none

/-- One member row of `Stack::draw`: the member text centred between
box sides, the tee pair at the entry-height row (`p.1` is the member's
index, so the row lands at diagram position `p.1 + 2`). -/
def stackCharRow (width entryH : Nat) (p : Nat × String) : String :=
  let lp := (width - 2 - p.2.length) / 2
  let rp := (width - 2 - p.2.length + 1) / 2
  let syms : Char × Char :=
    if p.1 + 2 = entryH then (sym.J_LEFT, sym.J_RIGHT) else (sym.L_VERT, sym.L_VERT)
  glyph syms.1 ++ spaces lp ++ p.2 ++ spaces rp ++ glyph syms.2

/-- The row loop of `Choice::draw`: each row of one branch's sub-diagram
is decorated according to its position, with the `diagram.len()`-sensitive
midpoint checks evaluated against the accumulated diagram. -/
def choiceRows (rows : List (Nat × String)) (i choices midpoint entry lp rp : Nat)
    (diagram : List String) : List String :=
  match rows with
  | [] => diagram
  | (n, line) :: rest =>
    let row :=
      if n = entry then
        let syms : Char × Char :=
          if i = 0 then (sym.C_TL_RND, sym.C_TR_RND)
          else if diagram.length = midpoint then (sym.CROSS, sym.CROSS)
          else if i = choices - 1 then (sym.C_BL_RND, sym.C_BR_RND)
          else (sym.J_RIGHT, sym.J_LEFT)
        glyph syms.1 ++ repeatC sym.L_HORZ lp ++ line ++ repeatC sym.L_HORZ rp ++ glyph syms.2
      else if diagram.length = midpoint then
        glyph sym.J_LEFT ++ line ++ glyph sym.J_RIGHT
      else if (n < entry ∧ i = 0) ∨ (entry < n ∧ i = choices - 1) then
        " " ++ spaces lp ++ line ++ spaces rp ++ " "
      else
        glyph sym.L_VERT ++ spaces lp ++ line ++ spaces rp ++ glyph sym.L_VERT
    choiceRows rest i choices midpoint entry lp rp (diagram ++ [row])

mutual

/-- `Draw::draw` of each node, producing the list of rows; `none` models
a Rust panic (the `panic!` on a `ZeroOrOne` `Repetition`, or a `usize`
underflow / out-of-bounds index in a debug build). -/
def Node.draw : Node → Option (List String)
  | .start => some ["START" ++ glyph sym.START]
  | .end' => some [glyph sym.END ++ "END"]
  | .terminal text =>
    some [glyph sym.C_TL_SQR ++ repeatC sym.L_HORZ (Node.width (.terminal text) - 2) ++
            glyph sym.C_TR_SQR,
          glyph sym.J_LEFT ++ " " ++ text ++ " " ++ glyph sym.J_RIGHT,
          glyph sym.C_BL_SQR ++ repeatC sym.L_HORZ (Node.width (.terminal text) - 2) ++
            glyph sym.C_BR_SQR]
  | .anchor text =>
    some [glyph sym.C_TL_SQR_B ++ repeatC sym.L_HORZ_B (Node.width (.anchor text) - 2) ++
            glyph sym.C_TR_SQR_B,
          glyph sym.J_LEFT_B ++ text ++ glyph sym.J_RIGHT_B,
          glyph sym.C_BL_SQR_B ++ repeatC sym.L_HORZ_B (Node.width (.anchor text) - 2) ++
            glyph sym.C_BR_SQR_B]
  | .sequence cs => Node.seqLoop cs 0 [String.mk []] 0
  | .repetition inner rep =>
    match Node.draw inner with
    | none => none
    | some rows =>
      let e := inner.entryHeight
      let decorated := rows.enum.map (fun p =>
        if e = p.1 then
          glyph sym.J_DOWN ++ glyph sym.L_HORZ ++ p.2 ++ glyph sym.L_HORZ ++ glyph sym.J_DOWN
        else if e < p.1 then glyph sym.L_VERT ++ " " ++ p.2 ++ " " ++ glyph sym.L_VERT
        else "  " ++ p.2 ++ "  ")
      match repetitionDescription rep with
      | none => none
      | some desc =>
        match decorated.head? with
        | none => none
        | some d0 =>
          -- `(diagram[0].chars().count() - desciption.chars().count()).saturating_sub(2)`:
          -- the inner `usize` subtraction underflows when the description
          -- is wider than the decorated first row
          if desc.length ≤ d0.length then
            some (decorated ++
              [glyph sym.C_BL_RND ++ desc ++
                 repeatC sym.L_HORZ (d0.length - desc.length - 2) ++ glyph sym.C_BR_RND])
          else none
  | .optional inner =>
    match Node.draw inner with
    | none => none
    | some rows =>
      let e := inner.entryHeight + 1
      let decorated := rows.enum.map (fun p =>
        if e - 1 = p.1 then
          glyph sym.J_UP ++ glyph sym.L_HORZ ++ p.2 ++ glyph sym.L_HORZ ++ glyph sym.J_UP
        else if p.1 < e then glyph sym.L_VERT ++ " " ++ p.2 ++ " " ++ glyph sym.L_VERT
        else "  " ++ p.2 ++ "  ")
      match decorated.head? with
      | none => none
      | some d0 =>
        some ((glyph sym.C_TL_RND ++ repeatC sym.L_HORZ (d0.length - 2) ++
                 glyph sym.C_TR_RND) :: decorated)
  | .choice cs =>
    Node.choiceLoop cs 0 cs.length ((Node.totalHeight cs + 1) / 2 - 1) (Node.maxWidth cs) []
  | .stack invert characters =>
    let width := Node.width (.stack invert characters)
    let entryH := Node.entryHeight (.stack invert characters)
    let header := if invert then "None of:" ++ spaces (width - 8)
                  else "One of:" ++ spaces (width - 7)
    some ([header,
           glyph sym.C_TL_SQR ++ repeatC sym.L_HORZ (width - 2) ++ glyph sym.C_TR_SQR] ++
          characters.enum.map (stackCharRow width entryH) ++
          [glyph sym.C_BL_SQR ++ repeatC sym.L_HORZ (width - 2) ++ glyph sym.C_BR_SQR])
  | .capture inner name =>
    match Node.draw inner with
    | none => none
    | some rows =>
      let e := inner.entryHeight + 1
      let decorated := rows.enum.map (fun p =>
        if e = p.1 + 1 then
          glyph sym.CROSS ++ glyph sym.L_HORZ ++ p.2 ++ glyph sym.L_HORZ ++ glyph sym.CROSS
        else glyph sym.L_VERT_D ++ " " ++ p.2 ++ " " ++ glyph sym.L_VERT_D)
      match decorated.head? with
      | none => none
      | some d0 =>
        let lenFull := d0.length - 2
        if name.length ≤ lenFull then
          let leftPad := (lenFull - name.length) / 2
          let rightPad := lenFull - name.length - leftPad
          some (((glyph sym.C_TL_RND ++ repeatC sym.L_HORZ_D leftPad ++ name ++
                    repeatC sym.L_HORZ_D rightPad ++ glyph sym.C_TR_RND) ::
                 decorated) ++
                [glyph sym.C_BL_RND ++ repeatC sym.L_HORZ_D lenFull ++ glyph sym.C_BR_RND])
        else none

/-- The child loop of `Sequence::draw`: exit-height alignment, row-count
equalization, inter-child connector padding, then row-wise concatenation.
`diagram` starts as `[""]` and never shrinks, so its first row always
exists; a child drawing zero rows (`node[0]` out of bounds) is a panic. -/
def Node.seqLoop : List Node → Nat → List String → Nat → Option (List String)
  | [], _, diagram, _ => some diagram
  | child :: restC, n, diagram, exit =>
    match Node.draw child with
    | none => none
    | some node0 =>
      let ce := child.entryHeight
      let step1 : Option (List String × List String × Nat) :=
        if exit < ce then
          some (List.replicate (ce - exit) (spaces ((diagram.head?.getD (String.mk [])).length))
                  ++ diagram,
                node0, ce)
        else if ce < exit then
          match node0.head? with
          | none => none
          | some n0 =>
            some (diagram, List.replicate (exit - ce) (spaces n0.length) ++ node0, exit)
        else some (diagram, node0, exit)
      match step1 with
      | none => none
      | some (diagram1, node1, exit1) =>
        let step2 : Option (List String × List String) :=
          if node1.length < diagram1.length then
            match node1.head? with
            | none => none
            | some n0 =>
              some (diagram1,
                    node1 ++ List.replicate (diagram1.length - node1.length) (spaces n0.length))
          else if diagram1.length < node1.length then
            some (diagram1 ++ List.replicate (node1.length - diagram1.length)
                    (spaces ((diagram1.head?.getD (String.mk [])).length)),
                  node1)
          else some (diagram1, node1)
        match step2 with
        | none => none
        | some (diagram2, node2) =>
          let diagram3 :=
            if 0 < n then
              diagram2.enum.map (fun p =>
                if p.1 = exit1 then p.2 ++ repeatC sym.L_HORZ H_PADDING
                else p.2 ++ repeatC ' ' H_PADDING)
            else diagram2
          Node.seqLoop restC (n + 1) ((diagram3.zip node2).map (fun p => p.1 ++ p.2)) exit1

/-- The branch loop of `Choice::draw`, stacking each branch's rows onto
the accumulated diagram. -/
def Node.choiceLoop : List Node → Nat → Nat → Nat → Nat → List String → Option (List String)
  | [], _, _, _, _, diagram => some diagram
  | node :: restC, i, choices, midpoint, width, diagram =>
    match Node.draw node with
    | none => none
    | some sub =>
      match sub.head? with
      | none => none
      | some s0 =>
        let lp := (width - s0.length) / 2
        let rp := (width - s0.length + 1) / 2
        Node.choiceLoop restC (i + 1) choices midpoint width
          (choiceRows sub.enum i choices midpoint node.entryHeight lp rp diagram)

end

/-!
## Diagram generation (`RailroadRenderer` of `src/railroad/renderer.rs`)
-/

/-- Outcome of diagram generation: `Ok`, a recoverable `Err`, or a panic
(the `.unwrap()` in the `Alternation` branch). -/
inductive GOut (α : Type) where
  | ok (a : α)
  | err (e : Error)
  | panic
  deriving Repr

/-- `RailroadRenderer::render_character`. -/
def renderCharacter : CharacterType → Except Error String
  | .between a b =>
    match renderCharacter a with
    | .error e => .error e
    | .ok ra =>
      match renderCharacter b with
      | .error e => .error e
      | .ok rb => .ok ("[" ++ ra ++ "-" ++ rb ++ "]")
  | .terminal a => .ok (String.singleton a)
  | .meta a =>
    .ok (match a with
         | .word m => (if m then "" else "Non-") ++ "Word"
         | .digit m => (if m then "" else "Non-") ++ "Digit"
         | .whitespace m => (if m then "" else "Non-") ++ "Whitespace"
         | .any => "Any")
  | _ => .error .invalidParsing

/-- `render_character` over a member list, propagating the first error
(the `?` in the `for` loop of the `Character` branch). -/
def renderList : List CharacterType → Except Error (List String)
  | [] => .ok []
  | c :: cs =>
    match renderCharacter c with
    | .error e => .error e
    | .ok r =>
      match renderList cs with
      | .error e => .error e
      | .ok rs => .ok (r :: rs)

mutual

/-- `RailroadRenderer::generate_diagram_element`. -/
def generateDiagramElement : RegEx → GOut Node
  | .terminal a => .ok (.terminal a)
  | .repetition rep a =>
    match rep with
    | .zeroOrOne =>
      match generateDiagramElement a with
      | .ok n => .ok (.optional n)
      | .err e => .err e
      | .panic => .panic
    | _ =>
      match generateDiagramElement a with
      | .ok n => .ok (.repetition n rep)
      | .err e => .err e
      | .panic => .panic
  | .alternation a =>
    match genListUnwrap a with
    | .ok ns => .ok (.choice ns)
    | .err e => .err e
    | .panic => .panic
  | .element a =>
    match genList a with
    | .ok ns => .ok (.sequence ns)
    | .err e => .err e
    | .panic => .panic
  | .anchor a =>
    match a with
    | .start => .ok (.anchor "LINE START")
    | .end' => .ok (.anchor "LINE END")
    | _ => .ok (.anchor "")
  | .character a =>
    match a with
    | .any b =>
      match renderList b with
      | .ok cs => .ok (.stack false cs)
      | .error e => .err e
    | .not b =>
      match renderList b with
      | .ok cs => .ok (.stack true cs)
      | .error e => .err e
    | .meta m =>
      match renderCharacter (.meta m) with
      | .ok t => .ok (.anchor t)
      | .error e => .err e
    | _ => .err .invalidParsing
  | .capture name grp a =>
    match generateDiagramElement a with
    | .ok n =>
      .ok (.capture n (match name with
                       | some nm => nm
                       | none => "Group " ++ toString grp))
    | .err e => .err e
    | .panic => .panic

/-- The `Element` child loop of `generate_diagram_element`: each child is
generated with `?` propagation. -/
def genList : List RegEx → GOut (List Node)
  | [] => .ok []
  | r :: rs =>
    match generateDiagramElement r with
    | .ok n =>
      match genList rs with
      | .ok ns => .ok (n :: ns)
      | .err e => .err e
      | .panic => .panic
    | .err e => .err e
    | .panic => .panic

/-- The `Alternation` branch's
`a.iter().map(|x| generate_diagram_element(x).unwrap()).collect()`:
a child error is `.unwrap()`ed, i.e. a panic. -/
def genListUnwrap : List RegEx → GOut (List Node)
  | [] => .ok []
  | r :: rs =>
    match generateDiagramElement r with
    | .ok n =>
      match genListUnwrap rs with
      | .ok ns => .ok (n :: ns)
      | .err _ => .panic
      | .panic => .panic
    | .err _ => .panic
    | .panic => .panic

end

/-- `RailroadRenderer::generate_diagram`: the generated elements wrapped
in `Start … End` markers inside a `Sequence`. -/
def generateDiagram : RegEx → GOut Node
  | .element a =>
    match genList a with
    | .ok ns => .ok (.sequence ([.start] ++ ns ++ [.end']))
    | .err e => .err e
    | .panic => .panic
  | tree =>
    match generateDiagramElement tree with
    | .ok n => .ok (.sequence [.start, n, .end'])
    | .err e => .err e
    | .panic => .panic

/-- `RailroadRenderer::render_diagram`. -/
def renderDiagram (diagram : Node) : Option (List String) := diagram.draw

/-!
## Derived predicates used by the theorems
-/

mutual

/-- Every `Alternation` occurring anywhere in the tree holds at least two
branches. -/
def altOk : RegEx → Bool
  | .element v => altOkList v
  | .repetition _ b => altOk b
  | .alternation v => decide (2 ≤ v.length) && altOkList v
  | .character _ => true
  | .anchor _ => true
  | .terminal _ => true
  | .capture _ _ b => altOk b

/-- `altOk` over a branch list. -/
def altOkList : List RegEx → Bool
  | [] => true
  | x :: xs => altOk x && altOkList xs

end

mutual

/-- Whether any `Capture` node occurs anywhere in the tree. -/
def containsCapture : RegEx → Bool
  | .element v => containsCaptureList v
  | .repetition _ b => containsCapture b
  | .alternation v => containsCaptureList v
  | .character _ => false
  | .anchor _ => false
  | .terminal _ => false
  | .capture _ _ _ => true

/-- `containsCapture` over a child list. -/
def containsCaptureList : List RegEx → Bool
  | [] => false
  | x :: xs => containsCapture x || containsCaptureList xs

end

/-!
## Claims
-/

/-- A single glyph has one display column. -/
theorem glyph_length (c : Char) : (glyph c).length = 1 := rfl

/-- `repeat` produces `n` display columns. -/
theorem repeatC_length (c : Char) (n : Nat) : (repeatC c n).length = n := by
  simp [repeatC, String.length]

/-- A run of `n` spaces has `n` display columns. -/
theorem spaces_length (n : Nat) : (spaces n).length = n := by
  simp [spaces, repeatC, String.length]

/-- A `Stack` member row is exactly `width` columns when the member fits
inside the box. -/
theorem stackCharRow_length (width e : Nat) (p : Nat × String)
    (h : p.2.length + 2 ≤ width) : (stackCharRow width e p).length = width := by
  unfold stackCharRow
  split <;> simp [glyph_length, spaces_length, String.length_append] <;> omega

/-- All `Stack` member rows are exactly `width` columns. -/
theorem stack_rows_lengths (width e : Nat) :
    ∀ (chars : List String) (k : Nat), (∀ s ∈ chars, s.length + 2 ≤ width) →
      ((chars.enumFrom k).map (stackCharRow width e)).map String.length
        = List.replicate chars.length width := by
  intro chars
  induction chars with
  | nil => intro k h; simp
  | cons s ss ih =>
    intro k h
    simp only [List.enumFrom, List.map_cons, List.length_cons, List.replicate_succ]
    rw [stackCharRow_length width e (k, s) (h s (by simp))]
    rw [ih (k + 1) (fun x hx => h x (by simp [hx]))]

/-- Every member's length is bounded by the folded maximum. -/
theorem member_le_foldr_max (l : List String) :
    ∀ s ∈ l, s.length ≤ (l.map String.length).foldr max 0 := by
  induction l with
  | nil => simp
  | cons x xs ih =>
    intro s hs
    rcases List.mem_cons.mp hs with h1 | h1
    · subst h1
      simp only [List.map_cons, List.foldr_cons]
      exact le_max_left _ _
    · simp only [List.map_cons, List.foldr_cons]
      exact le_trans (ih s h1) (le_max_right _ _)

/-- Lowercase letters are not decimal digits. -/
theorem isLowerC_not_digit {c : Char} (h : isLowerC c = true) : isDigitC c = false := by
  simp only [isLowerC, Bool.and_eq_true, decide_eq_true_eq] at h
  simp only [isDigitC, Bool.and_eq_false_iff, decide_eq_false_iff_not]
  right
  intro hc
  exact absurd (le_trans h.1 hc) (by decide)

/-- Uppercase letters are not decimal digits. -/
theorem isUpperC_not_digit {c : Char} (h : isUpperC c = true) : isDigitC c = false := by
  simp only [isUpperC, Bool.and_eq_true, decide_eq_true_eq] at h
  simp only [isDigitC, Bool.and_eq_false_iff, decide_eq_false_iff_not]
  right
  intro hc
  exact absurd (le_trans h.1 hc) (by decide)

/-- Uppercase letters are not lowercase letters. -/
theorem isUpperC_not_lower {c : Char} (h : isUpperC c = true) : isLowerC c = false := by
  simp only [isUpperC, Bool.and_eq_true, decide_eq_true_eq] at h
  simp only [isLowerC, Bool.and_eq_false_iff, decide_eq_false_iff_not]
  left
  intro hc
  exact absurd (le_trans hc h.2) (by decide)

/-- C2, counterexample: parsing `"(a(b))"` yields **no** `Capture` node at
all — a plain parenthesized group is parsed by the fall-through
`_ => self.alternation()` arm of `group`, which never wraps the body in
`RegEx::Capture` and never touches the capture counter; so the claim's
"Capture with index 1 for the outer group and index 2 for the inner
group" is false on this input. -/
theorem C2_plain_group_no_capture :
    parse "(a(b))".toList =
      .ok (.element [.element [.terminal "a", .element [.terminal "b"]]])
        ⟨[], 6, 0, '\\'⟩ ∧
    containsCapture (.element [.element [.terminal "a", .element [.terminal "b"]]]) = false := by
  exact ⟨rfl, rfl⟩

/-- The name loop of the named-capture branch touches neither the
capture counter nor the escape character. -/
theorem nameLoop_preserves :
    ∀ (fuel : Nat) (acc : String) (s : PState) (nm : String) (s' : PState),
      nameLoop fuel acc s = .ok nm s' →
      s'.captureGroup = s.captureGroup ∧ s'.esc = s.esc := by
  intro fuel
  induction fuel with
  | zero => intro acc s nm s' h; simp [nameLoop] at h
  | succ n ih =>
    intro acc s nm s' h
    cases hR : s.rest with
    | nil =>
      simp only [nameLoop, hR] at h
      cases h
      exact ⟨rfl, rfl⟩
    | cons c t =>
      simp only [nameLoop, hR] at h
      split at h
      · cases h
        exact ⟨rfl, rfl⟩
      · have := ih _ _ _ _ h
        simpa [PState.adv] using this

/-- C2, amended: the parser assigns capture indices only to groups opened
with a capture prefix (`?:` or `?<name>`), incrementing the counter in
left-to-right order of those opening delimiters starting at 1; a plain
`(...)` group produces no `Capture` node.  Universally: whatever a plain
group's body parses to is returned unchanged — no `Capture` wrapper, no
counter bump at this group; an unnamed or named capture-prefixed group
increments the counter at its opening delimiter, records exactly the
incremented value as its index, and parses its body with the incremented
counter (so capture-prefixed groups opened further right, inside or
after the body, receive strictly larger indices; the counter starts at 0
per parse, making the first index 1).  Concretely, `"(?:a(?:b))"` yields
outer index 1 and inner index 2, and `"(?<name>a)"` yields index 1. -/
theorem C2_capture_prefix_numbering :
    (∀ (fuel : Nat) (c : Char) (t t4 : List Char) (i cg : Nat) (esc : Char)
       (a : RegEx) (s4 : PState),
      ¬(c = '?') →
      alternation fuel ⟨c :: t, i + 1, cg, esc⟩ = .ok a s4 →
      s4.rest = ')' :: t4 →
      group (fuel + 1) ⟨'(' :: c :: t, i, cg, esc⟩ = .ok a (s4.adv t4)) ∧
    (∀ (fuel : Nat) (t2 t4 : List Char) (i cg : Nat) (esc : Char)
       (a : RegEx) (s4 : PState),
      alternation fuel ⟨t2, i + 3, cg + 1, esc⟩ = .ok a s4 →
      s4.rest = ')' :: t4 →
      group (fuel + 1) ⟨'(' :: '?' :: ':' :: t2, i, cg, esc⟩
        = .ok (.capture none (cg + 1) a) (s4.adv t4)) ∧
    (∀ (fuel : Nat) (t2 t4 t6 : List Char) (i cg : Nat) (esc : Char)
       (nm : String) (s4 : PState) (a : RegEx) (s6 : PState),
      nameLoop fuel "" ⟨t2, i + 3, cg, esc⟩ = .ok nm s4 →
      s4.rest = '>' :: t4 →
      alternation fuel ⟨t4, s4.idx + 1, cg + 1, esc⟩ = .ok a s6 →
      s6.rest = ')' :: t6 →
      group (fuel + 1) ⟨'(' :: '?' :: '<' :: t2, i, cg, esc⟩
        = .ok (.capture (some nm) (cg + 1) a) (s6.adv t6)) ∧
    parse "(?:a(?:b))".toList =
      .ok (.element [.capture none 1
            (.element [.terminal "a",
                       .capture none 2 (.element [.terminal "b"])])])
        ⟨[], 10, 2, '\\'⟩ ∧
    parse "(?<name>a)".toList =
      .ok (.element [.capture (some "name") 1 (.element [.terminal "a"])])
        ⟨[], 10, 1, '\\'⟩ := by
  refine ⟨?_, ?_, ?_, rfl, rfl⟩
  · intro fuel c t t4 i cg esc a s4 hc hA hR
    conv_lhs => rw [group]
    simp only [PState.adv]
    split
    · rename_i e1 s1 heq
      rw [hA] at heq
      cases heq
      simp only [hR]
    · rename_i e heq
      rw [hA] at heq
      cases heq
    · rename_i heq
      rw [hA] at heq
      cases heq
    · rename_i heq
      rw [hA] at heq
      cases heq
  · intro fuel t2 t4 i cg esc a s4 hA hR
    conv_lhs => rw [group]
    simp only [PState.adv]
    rw [show i + 1 + 1 + 1 = i + 3 from rfl]
    simp only [hA, hR]
  · intro fuel t2 t4 t6 i cg esc nm s4 a s6 hN hR4 hA hR6
    obtain ⟨hcg, hesc⟩ := nameLoop_preserves fuel "" ⟨t2, i + 3, cg, esc⟩ nm s4 hN
    conv_lhs => rw [group]
    simp only [PState.adv]
    rw [show i + 1 + 1 + 1 = i + 3 from rfl]
    simp only [hN, hR4, hcg, hesc, hA, hR6]

/-- C2, witness for the amended rule's hypotheses: the plain group
`"(a)"` returns its body with no `Capture` and an untouched counter,
while `"(?:a)"` wraps the same body in `Capture` with index
`counter + 1 = 1`. -/
theorem C2_capture_prefix_numbering_witness :
    group 21 ⟨['(', 'a', ')'], 0, 0, '\\'⟩
      = .ok (.element [.terminal "a"]) ⟨[], 3, 0, '\\'⟩ ∧
    group 21 ⟨['(', '?', ':', 'a', ')'], 0, 0, '\\'⟩
      = .ok (.capture none 1 (.element [.terminal "a"])) ⟨[], 5, 1, '\\'⟩ :=
  ⟨C2_capture_prefix_numbering.1 20 'a' [')'] [] 0 0 '\\'
     (.element [.terminal "a"]) ⟨[')'], 2, 0, '\\'⟩ (by decide) rfl rfl,
   C2_capture_prefix_numbering.2.1 20 ['a', ')'] [] 0 0 '\\'
     (.element [.terminal "a"]) ⟨[')'], 4, 1, '\\'⟩ rfl rfl⟩

/-- C3: the claim is the spec's stated intent (unmatched delimiters are
recoverable errors, never a panic), but the code violates it: parsing
`"(a"` reaches `self.consume(')').unwrap()` with the cursor at the end of
the input, so `peek` unwraps `None` and the process aborts; and parsing
`")"` returns `Ok` with an *empty partial result*, silently leaving the
unmatched `')'` unconsumed, instead of reporting an error. -/
theorem C3_unmatched_paren_panics :
    parse "(a".toList = .panic ∧
    parse ")".toList = .ok (.element []) ⟨[')'], 0, 0, '\\'⟩ := by
  exact ⟨rfl, rfl⟩

/-- C7: the claim is the spec's stated intent (`saturating_sub` shows the
author meant the padding to clamp at zero), but the code applies
`saturating_sub(2)` only *after* the unguarded `usize` subtraction
`diagram[0].chars().count() - desciption.chars().count()`, which
underflows whenever the description is wider than the bar.  Concretely,
`"a{11111,11111}"` parses to a `Repetition` whose description
`" 11111-11111 "` has 13 columns while the bar is 9 columns wide, so
`draw()` aborts (debug build) instead of producing a padded bottom bar:
the embedded `draw` returns `none` (the modelled panic). -/
theorem C7_padding_underflow :
    parse "a{11111,11111}".toList =
      .ok (.element [.repetition (.between 11111 11111) (.terminal "a")])
        ⟨[], 14, 0, '\\'⟩ ∧
    generateDiagramElement (.repetition (.between 11111 11111) (.terminal "a")) =
      .ok (.repetition (.terminal "a") (.between 11111 11111)) ∧
    repetitionDescription (.between 11111 11111) = some " 11111-11111 " ∧
    (" 11111-11111 " : String).length = 13 ∧
    Node.width (.repetition (.terminal "a") (.between 11111 11111)) = 9 ∧
    Node.draw (.repetition (.terminal "a") (.between 11111 11111)) = none := by
  refine ⟨rfl, rfl, rfl, rfl, rfl, rfl⟩

/-- A decimal digit is not `'}'`. -/
theorem digit_ne_rbrace {c : Char} (h : isDigitC c = true) : ¬(c = '}') := by
  intro he; subst he; exact absurd h (by decide)

/-- A decimal digit is not `','`. -/
theorem digit_ne_comma {c : Char} (h : isDigitC c = true) : ¬(c = ',') := by
  intro he; subst he; exact absurd h (by decide)

/-- The first loop of `repetition_group` consumes a run of digits,
folding them into the accumulator positionally. -/
theorem repLoop1_digits :
    ∀ (ds : List Char) (fuel minc : Nat) (r : List Char) (i cg : Nat) (esc : Char),
      (∀ c ∈ ds, isDigitC c = true) →
      repLoop1 (ds.length + fuel + 1) minc ⟨ds ++ r, i, cg, esc⟩
        = repLoop1 (fuel + 1) (List.foldl u32step minc ds) ⟨r, i + ds.length, cg, esc⟩ := by
  intro ds
  induction ds with
  | nil => intro fuel minc r i cg esc h; simp
  | cons c ds ih =>
    intro fuel minc r i cg esc h
    have hc : isDigitC c = true := h c (by simp)
    have h1 : ds.length + 1 + fuel + 1 = (ds.length + fuel + 1) + 1 := by omega
    simp only [List.length_cons, List.cons_append, h1]
    conv_lhs => rw [repLoop1]
    simp only [digit_ne_rbrace hc, if_false, hc, if_true, PState.adv]
    rw [ih (fuel) (u32step minc c) r (i + 1) cg esc (fun x hx => h x (by simp [hx]))]
    simp only [List.foldl_cons]
    have h2 : i + 1 + ds.length = i + (ds.length + 1) := by omega
    rw [h2]

/-- The second loop of `repetition_group` consumes a run of digits,
folding them into the optional maximum via `maxStep`. -/
theorem repLoop2_digits :
    ∀ (ds : List Char) (fuel minc : Nat) (maxc : Option Nat) (twoNum : Bool)
      (r : List Char) (i cg : Nat) (esc : Char),
      (∀ c ∈ ds, isDigitC c = true) →
      repLoop2 (ds.length + fuel + 1) minc maxc twoNum ⟨ds ++ r, i, cg, esc⟩
        = repLoop2 (fuel + 1) minc (List.foldl maxStep maxc ds) twoNum
            ⟨r, i + ds.length, cg, esc⟩ := by
  intro ds
  induction ds with
  | nil => intro fuel minc maxc twoNum r i cg esc h; simp
  | cons c ds ih =>
    intro fuel minc maxc twoNum r i cg esc h
    have hc : isDigitC c = true := h c (by simp)
    have h1 : ds.length + 1 + fuel + 1 = (ds.length + fuel + 1) + 1 := by omega
    simp only [List.length_cons, List.cons_append, h1]
    conv_lhs => rw [repLoop2]
    simp only [digit_ne_rbrace hc, if_false, hc, if_true, PState.adv]
    rw [ih fuel minc (maxStep maxc c) twoNum r (i + 1) cg esc
      (fun x hx => h x (by simp [hx]))]
    simp only [List.foldl_cons]
    have h2 : i + 1 + ds.length = i + (ds.length + 1) := by omega
    rw [h2]

/-- `to_digit` values stay below `2^32`. -/
theorem digitVal_lt (c : Char) : digitVal c < 4294967296 := by
  have h1 : c.toNat < 4294967296 := by simpa using UInt32.toNat_lt c.val
  simp only [digitVal]
  omega

/-- Once the maximum is `Some`, `maxStep` folds exactly like `u32step`. -/
theorem foldl_maxStep_some (ds : List Char) :
    ∀ k : Nat, List.foldl maxStep (some k) ds = some (List.foldl u32step k ds) := by
  induction ds with
  | nil => intro k; simp
  | cons c ds ih =>
    intro k
    simp only [List.foldl_cons]
    rw [show maxStep (some k) c = some (u32step k c) from by
      simp [maxStep, u32step, Nat.mul_comm]]
    exact ih (u32step k c)

/-- Folding `maxStep` from `None` over a nonempty digit run yields the
run's positional value. -/
theorem foldl_maxStep_digits (d : Char) (ds : List Char) :
    List.foldl maxStep none (d :: ds) = some (digitsVal (d :: ds)) := by
  simp only [List.foldl_cons, digitsVal]
  rw [show maxStep none d = some (u32step 0 d) from by
    simp [maxStep, u32step, Nat.mod_eq_of_lt (digitVal_lt d)]]
  exact foldl_maxStep_some ds (u32step 0 d)

/-- C4: quantifier bodies between `{` and `}` accumulate decimal digits
positionally (`value = value*10 + digit`, `u32`-wrapping): digits only →
`Exactly(value)`; digits then a comma and nothing → `OrMore(value)`;
digits, comma, digits → `Between(first, second)`; and a non-digit,
non-comma character anywhere inside the braces (in either loop) fails
with the repetition-value error naming that character.  In particular
`"a{8}"` → `Exactly(8)`, `"a{5,}"` → `OrMore(5)`,
`"a{1,10}"` → `Between(1,10)`. -/
theorem C4_repetition_quantifier :
    (∀ (ds t : List Char) (i cg : Nat) (esc : Char) (fuel : Nat),
      (∀ c ∈ ds, isDigitC c = true) →
      repetitionGroup (ds.length + fuel + 2) ⟨'{' :: (ds ++ '}' :: t), i, cg, esc⟩
        = .ok (.exactly (digitsVal ds)) ⟨t, i + ds.length + 2, cg, esc⟩) ∧
    (∀ (ds t : List Char) (i cg : Nat) (esc : Char) (fuel : Nat),
      (∀ c ∈ ds, isDigitC c = true) →
      repetitionGroup (ds.length + fuel + 3) ⟨'{' :: (ds ++ ',' :: '}' :: t), i, cg, esc⟩
        = .ok (.orMore (digitsVal ds)) ⟨t, i + ds.length + 3, cg, esc⟩) ∧
    (∀ (ds ds2 t : List Char) (d : Char) (i cg : Nat) (esc : Char) (fuel : Nat),
      (∀ c ∈ ds, isDigitC c = true) → isDigitC d = true → (∀ c ∈ ds2, isDigitC c = true) →
      repetitionGroup (ds.length + ds2.length + fuel + 4)
          ⟨'{' :: (ds ++ ',' :: d :: (ds2 ++ '}' :: t)), i, cg, esc⟩
        = .ok (.between (digitsVal ds) (digitsVal (d :: ds2)))
            ⟨t, i + ds.length + ds2.length + 4, cg, esc⟩) ∧
    (∀ (ds t : List Char) (c : Char) (i cg : Nat) (esc : Char) (fuel : Nat),
      (∀ x ∈ ds, isDigitC x = true) → isDigitC c = false → ¬(c = ',') → ¬(c = '}') →
      repetitionGroup (ds.length + fuel + 2) ⟨'{' :: (ds ++ c :: t), i, cg, esc⟩
        = .err (.repetitionValue c)) ∧
    (∀ (ds ds2 t : List Char) (c : Char) (i cg : Nat) (esc : Char) (fuel : Nat),
      (∀ x ∈ ds, isDigitC x = true) → (∀ x ∈ ds2, isDigitC x = true) →
      isDigitC c = false → ¬(c = '}') →
      repetitionGroup (ds.length + ds2.length + fuel + 3)
          ⟨'{' :: (ds ++ ',' :: (ds2 ++ c :: t)), i, cg, esc⟩
        = .err (.repetitionValue c)) ∧
    parse "a{8}".toList =
      .ok (.element [.repetition (.exactly 8) (.terminal "a")]) ⟨[], 4, 0, '\\'⟩ ∧
    parse "a{5,}".toList =
      .ok (.element [.repetition (.orMore 5) (.terminal "a")]) ⟨[], 5, 0, '\\'⟩ ∧
    parse "a{1,10}".toList =
      .ok (.element [.repetition (.between 1 10) (.terminal "a")]) ⟨[], 7, 0, '\\'⟩ := by
  refine ⟨?_, ?_, ?_, ?_, ?_, rfl, rfl, rfl⟩
  · intro ds t i cg esc fuel h
    conv_lhs => rw [show ds.length + fuel + 2 = (ds.length + fuel + 1) + 1 from by omega,
      repetitionGroup]
    simp only [PState.adv]
    rw [repLoop1_digits ds fuel 0 ('}' :: t) (i + 1) cg esc h]
    conv_lhs => rw [repLoop1]
    simp only [if_true, repFinish, PState.adv, digitsVal]
    have h2 : i + 1 + ds.length + 1 = i + ds.length + 2 := by omega
    rw [h2]
    simp
  · intro ds t i cg esc fuel h
    conv_lhs => rw [show ds.length + fuel + 3 = (ds.length + (fuel + 1) + 1) + 1 from by omega,
      repetitionGroup]
    simp only [PState.adv]
    rw [repLoop1_digits ds (fuel + 1) 0 (',' :: '}' :: t) (i + 1) cg esc h]
    conv_lhs => rw [repLoop1]
    simp only [show ¬((',' : Char) = '}') from by decide, if_false,
      show isDigitC ',' = false from by decide, if_true, PState.adv]
    conv_lhs => rw [repLoop2]
    simp only [if_true, repFinish, PState.adv, digitsVal]
    have h2 : i + 1 + ds.length + 1 + 1 = i + ds.length + 3 := by omega
    rw [h2]
    simp
  · intro ds ds2 t d i cg esc fuel h hd h2d
    conv_lhs => rw [show ds.length + ds2.length + fuel + 4
        = (ds.length + (ds2.length + fuel + 2) + 1) + 1 from by omega, repetitionGroup]
    simp only [PState.adv]
    rw [repLoop1_digits ds (ds2.length + fuel + 2) 0 (',' :: d :: (ds2 ++ '}' :: t))
      (i + 1) cg esc h]
    conv_lhs => rw [repLoop1]
    simp only [show ¬((',' : Char) = '}') from by decide, if_false,
      show isDigitC ',' = false from by decide, Bool.false_eq_true, if_true, PState.adv]
    rw [show (d :: (ds2 ++ '}' :: t)) = (d :: ds2) ++ '}' :: t from rfl]
    rw [show ds2.length + fuel + 2 = (d :: ds2).length + fuel + 1 from by simp; omega]
    rw [repLoop2_digits (d :: ds2) fuel (List.foldl u32step 0 ds) none true ('}' :: t)
      (i + 1 + ds.length + 1) cg esc (List.forall_mem_cons.mpr ⟨hd, h2d⟩)]
    rw [foldl_maxStep_digits d ds2]
    conv_lhs => rw [repLoop2]
    simp only [if_true, repFinish, PState.adv, digitsVal]
    have h3 : i + 1 + ds.length + 1 + (d :: ds2).length + 1
        = i + ds.length + ds2.length + 4 := by
      simp; omega
    rw [h3]
  · intro ds t c i cg esc fuel h hc hcomma hbrace
    conv_lhs => rw [show ds.length + fuel + 2 = (ds.length + fuel + 1) + 1 from by omega,
      repetitionGroup]
    simp only [PState.adv]
    rw [repLoop1_digits ds fuel 0 (c :: t) (i + 1) cg esc h]
    conv_lhs => rw [repLoop1]
    simp [hc, hcomma, hbrace]
  · intro ds ds2 t c i cg esc fuel h h2 hc hbrace
    conv_lhs => rw [show ds.length + ds2.length + fuel + 3
        = (ds.length + (ds2.length + fuel + 1) + 1) + 1 from by omega, repetitionGroup]
    simp only [PState.adv]
    rw [repLoop1_digits ds (ds2.length + fuel + 1) 0 (',' :: (ds2 ++ c :: t)) (i + 1) cg esc h]
    conv_lhs => rw [repLoop1]
    simp only [show ¬((',' : Char) = '}') from by decide, if_false,
      show isDigitC ',' = false from by decide, Bool.false_eq_true, if_true, PState.adv]
    rw [repLoop2_digits ds2 fuel (List.foldl u32step 0 ds) none true (c :: t)
      (i + 1 + ds.length + 1) cg esc h2]
    conv_lhs => rw [repLoop2]
    simp [hc, hbrace]

/-- C4, witness: the quantifier body `{8}` parses to `Exactly(8)` and the
body `{x…}` errs naming `'x'`. -/
theorem C4_repetition_quantifier_witness :
    repetitionGroup 3 ⟨['{', '8', '}'], 0, 0, '\\'⟩
      = .ok (.exactly (digitsVal ['8'])) ⟨[], 3, 0, '\\'⟩ ∧
    digitsVal ['8'] = 8 ∧
    repetitionGroup 2 ⟨['{', 'x', '}'], 0, 0, '\\'⟩ = .err (.repetitionValue 'x') :=
  ⟨C4_repetition_quantifier.1 ['8'] [] 0 0 '\\' 0 (by decide), by decide,
   C4_repetition_quantifier.2.2.2.1 [] ['}'] 'x' 0 0 '\\' 0 (by decide) (by decide)
     (by decide) (by decide)⟩

/-- C5, counterexample: `"[_-0]"` contains the two-endpoint range `_-…`
whose first endpoint `'_'` belongs to no class; `next_character`'s
dash fall-through builds a `Between` **without any class check** (and in
fact takes the dash itself as the second endpoint), so parsing succeeds
with mismatched-class endpoints instead of failing with a
character-range error. -/
theorem C5_mixed_range_accepted :
    parse "[_-0]".toList =
      .ok (.element [.character (.any
            [.between (.terminal '_') (.terminal '-'), .terminal '0'])])
        ⟨[], 5, 0, '\\'⟩ := by
  exact rfl

/-- C5, amended: the same-class requirement holds only for ranges whose
*first* endpoint is a digit, lowercase letter, or uppercase letter: there
a second endpoint outside that class fails with `Error::CharacterRange`
naming both endpoints, and a second endpoint in the class succeeds as a
`Between`; for any other first endpoint the dash fall-through performs no
class check at all. -/
theorem C5_classed_range_check :
    (∀ (a b : Char) (t : List Char) (i cg : Nat) (esc : Char) (fuel : Nat),
      isDigitC a = true → isDigitC b = false →
      nextCharacter (fuel + 2) ⟨a :: '-' :: b :: t, i, cg, esc⟩ =
        .err (.characterRange a b)) ∧
    (∀ (a b : Char) (t : List Char) (i cg : Nat) (esc : Char) (fuel : Nat),
      isLowerC a = true → isLowerC b = false →
      nextCharacter (fuel + 2) ⟨a :: '-' :: b :: t, i, cg, esc⟩ =
        .err (.characterRange a b)) ∧
    (∀ (a b : Char) (t : List Char) (i cg : Nat) (esc : Char) (fuel : Nat),
      isUpperC a = true → isUpperC b = false →
      nextCharacter (fuel + 2) ⟨a :: '-' :: b :: t, i, cg, esc⟩ =
        .err (.characterRange a b)) ∧
    (∀ (a b : Char) (t : List Char) (i cg : Nat) (esc : Char) (fuel : Nat),
      isDigitC a = true → isDigitC b = true →
      nextCharacter (fuel + 3) ⟨a :: '-' :: b :: ']' :: t, i, cg, esc⟩ =
        .ok (.between (.terminal a) (.terminal b)) ⟨']' :: t, i + 3, cg, esc⟩) ∧
    (∀ (a b : Char) (t : List Char) (i cg : Nat) (esc : Char) (fuel : Nat),
      isLowerC a = true → isLowerC b = true →
      nextCharacter (fuel + 3) ⟨a :: '-' :: b :: ']' :: t, i, cg, esc⟩ =
        .ok (.between (.terminal a) (.terminal b)) ⟨']' :: t, i + 3, cg, esc⟩) ∧
    (∀ (a b : Char) (t : List Char) (i cg : Nat) (esc : Char) (fuel : Nat),
      isUpperC a = true → isUpperC b = true →
      nextCharacter (fuel + 3) ⟨a :: '-' :: b :: ']' :: t, i, cg, esc⟩ =
        .ok (.between (.terminal a) (.terminal b)) ⟨']' :: t, i + 3, cg, esc⟩) := by
  refine ⟨fun a b t i cg esc fuel ha hb => ?_, fun a b t i cg esc fuel ha hb => ?_,
          fun a b t i cg esc fuel ha hb => ?_, fun a b t i cg esc fuel ha hb => ?_,
          fun a b t i cg esc fuel ha hb => ?_, fun a b t i cg esc fuel ha hb => ?_⟩
  · simp [nextCharacter, rangeTail, PState.adv, ha, hb]
  · simp [nextCharacter, rangeTail, PState.adv, isLowerC_not_digit ha, ha, hb]
  · simp [nextCharacter, rangeTail, PState.adv, isUpperC_not_digit ha,
          isUpperC_not_lower ha, ha, hb]
  · simp [nextCharacter, rangeTail, afterCharCheck, PState.adv, ha, hb]
  · simp [nextCharacter, rangeTail, afterCharCheck, PState.adv,
          isLowerC_not_digit ha, ha, hb]
  · simp [nextCharacter, rangeTail, afterCharCheck, PState.adv,
          isUpperC_not_digit ha, isUpperC_not_lower ha, ha, hb]

/-- C5, witness: the mismatched range `0-z` errs naming both endpoints,
and the matched range `0-9` succeeds. -/
theorem C5_classed_range_check_witness :
    nextCharacter 2 ⟨['0', '-', 'z'], 0, 0, '\\'⟩ = .err (.characterRange '0' 'z') ∧
    nextCharacter 3 ⟨['0', '-', '9', ']'], 0, 0, '\\'⟩ =
      .ok (.between (.terminal '0') (.terminal '9')) ⟨[']'], 3, 0, '\\'⟩ :=
  ⟨C5_classed_range_check.1 '0' 'z' [] 0 0 '\\' 0 (by decide) (by decide),
   C5_classed_range_check.2.2.2.1 '0' '9' [] 0 0 '\\' 0 (by decide) (by decide)⟩

/-- C1, amended: the draw contract — `draw()` has exactly `height()`
rows, every row exactly `width()` display columns, and
`entry_height() < height()` — holds for the leaf nodes `Terminal`,
`Anchor`, `Start`, and `Stack`; `End` satisfies the row-count and
entry-height parts, but its single drawn row has 4 columns while
`width()` returns 1.  (The composite nodes break other parts of the
contract: `Capture::draw` emits `height() + 1` rows, `Choice` rows are
`width() + 2` columns, `Sequence::width` takes the maximum rather than
the drawn row width, and an empty `Sequence` has
`entry_height() = height() = 0`.) -/
theorem C1_leaf_draw_contract :
    (∀ text : String,
      (Node.draw (.terminal text)).map (fun rows => rows.map String.length)
        = some (List.replicate (Node.height (.terminal text)) (Node.width (.terminal text))) ∧
      Node.entryHeight (.terminal text) < Node.height (.terminal text)) ∧
    (∀ text : String,
      (Node.draw (.anchor text)).map (fun rows => rows.map String.length)
        = some (List.replicate (Node.height (.anchor text)) (Node.width (.anchor text))) ∧
      Node.entryHeight (.anchor text) < Node.height (.anchor text)) ∧
    ((Node.draw .start).map (fun rows => rows.map String.length)
        = some (List.replicate (Node.height .start) (Node.width .start)) ∧
      Node.entryHeight .start < Node.height .start) ∧
    (∀ (invert : Bool) (characters : List String),
      (Node.draw (.stack invert characters)).map (fun rows => rows.map String.length)
        = some (List.replicate (Node.height (.stack invert characters))
            (Node.width (.stack invert characters))) ∧
      Node.entryHeight (.stack invert characters) < Node.height (.stack invert characters)) ∧
    ((Node.draw .end').map List.length = some (Node.height .end') ∧
      Node.entryHeight .end' < Node.height .end' ∧
      (Node.draw .end').map (fun rows => rows.map String.length) = some [4] ∧
      Node.width .end' = 1) := by
  refine ⟨fun text => ⟨?_, ?_⟩, fun text => ⟨?_, ?_⟩, ⟨rfl, by decide⟩,
          fun invert characters => ⟨?_, ?_⟩, ⟨rfl, by decide, rfl, rfl⟩⟩
  · simp [Node.draw, Node.height, Node.width, repeatC_length, glyph_length,
      String.length_append, List.replicate]
    refine ⟨by omega, ?_, by omega⟩
    have h : (" " : String).length = 1 := rfl
    omega
  · simp [Node.entryHeight, Node.height]
  · simp [Node.draw, Node.height, Node.width, repeatC_length, glyph_length,
      String.length_append, List.replicate]
    omega
  · simp [Node.entryHeight, Node.height]
  · set w := Node.width (.stack invert characters) with hw
    have hw9 : 9 ≤ w := le_max_right _ _
    have hmem : ∀ s ∈ characters, s.length + 2 ≤ w := by
      intro s hs
      calc s.length + 2 ≤ (characters.map String.length).foldr max 0 + 2 := by
            have := member_le_foldr_max characters s hs; omega
        _ ≤ w := le_max_left _ _
    have hhead : (if invert then "None of:" ++ spaces (w - 8)
                  else "One of:" ++ spaces (w - 7)).length = w := by
      cases invert <;>
        simp only [if_true, if_false, String.length_append, spaces_length,
          Bool.false_eq_true] <;>
        · have h8 : ("None of:" : String).length = 8 := rfl
          have h7 : ("One of:" : String).length = 7 := rfl
          omega
    have htop : (glyph sym.C_TL_SQR ++ repeatC sym.L_HORZ (w - 2) ++
        glyph sym.C_TR_SQR).length = w := by
      simp only [String.length_append, glyph_length, repeatC_length]; omega
    have hbot : (glyph sym.C_BL_SQR ++ repeatC sym.L_HORZ (w - 2) ++
        glyph sym.C_BR_SQR).length = w := by
      simp only [String.length_append, glyph_length, repeatC_length]; omega
    simp only [Node.draw, Option.map_some', Node.height]
    simp only [List.map_append, List.map_cons, List.map_nil, List.enum]
    rw [stack_rows_lengths w (Node.entryHeight (.stack invert characters)) characters 0 hmem]
    rw [← hw]
    rw [hhead, htop, hbot]
    rw [show characters.length + 3 = (characters.length + 1) + 1 + 1 from rfl]
    simp only [List.replicate_succ, List.cons_append, List.nil_append, List.cons.injEq,
      true_and]
    rw [← List.replicate_succ', ← List.replicate_succ]
    simp [List.replicate_succ]
  · simp only [Node.entryHeight, Node.height]
    omega

/-- C8, counterexample: the claim's success half ("succeeds when the
payload is Any, Not, or Meta") fails for an `Any` whose member list
itself contains an `Any`: `render_character` rejects such a member with
the invalid-parsing error. -/
theorem C8_nested_class_error :
    generateDiagramElement (.character (.any [.any []])) = .err .invalidParsing := by
  exact rfl

/-- C8, amended: generation of a `RegEx::Character` fails with the
invalid-parsing error when the payload is directly `Between` or
`Terminal`; it succeeds when the payload is `Meta`, and when the payload
is `Any`/`Not` it succeeds exactly when every member renders (members
must recursively be `Between`/`Terminal`/`Meta`, as the parser produces). -/
theorem C8_character_generation :
    (∀ a b, generateDiagramElement (.character (.between a b)) = .err .invalidParsing) ∧
    (∀ c, generateDiagramElement (.character (.terminal c)) = .err .invalidParsing) ∧
    (∀ m, ∃ t, generateDiagramElement (.character (.meta m)) = .ok (.anchor t)) ∧
    (∀ v cs, renderList v = .ok cs →
      generateDiagramElement (.character (.any v)) = .ok (.stack false cs)) ∧
    (∀ v cs, renderList v = .ok cs →
      generateDiagramElement (.character (.not v)) = .ok (.stack true cs)) := by
  refine ⟨fun a b => rfl, fun c => rfl, fun m => ?_, fun v cs h => ?_, fun v cs h => ?_⟩
  · cases m <;> exact ⟨_, rfl⟩
  · simp only [generateDiagramElement, h]
  · simp only [generateDiagramElement, h]

/-- C8, witness for the amended claim's hypotheses, at the member list
`[Terminal 'x']`. -/
theorem C8_character_generation_witness :
    renderList [CharacterType.terminal 'x'] = .ok ["x"] ∧
    generateDiagramElement (.character (.any [.terminal 'x'])) = .ok (.stack false ["x"]) :=
  ⟨rfl, C8_character_generation.2.2.2.1 [.terminal 'x'] ["x"] rfl⟩

/-- C10: at a group position, a backslash followed by any character other
than the six meta letters parses to a `Terminal` holding exactly that one
character, the backslash dropped. -/
theorem C10_escape_single_terminal :
    ∀ (c : Char) (t : List Char) (i cg : Nat) (esc : Char) (fuel : Nat),
      c ≠ 'w' → c ≠ 'W' → c ≠ 'd' → c ≠ 'D' → c ≠ 's' → c ≠ 'S' →
      group (fuel + 1) ⟨'\\' :: c :: t, i, cg, esc⟩ =
        .ok (.terminal (String.singleton c)) ⟨t, i + 2, cg, esc⟩ := by
  intro c t i cg esc fuel h1 h2 h3 h4 h5 h6
  simp [group, PState.adv, h1, h2, h3, h4, h5, h6]

/-- C10, witness: `"\\."` (after string unquoting, the two characters
`\` `.`) parses to `Terminal(".")`. -/
theorem C10_escape_single_terminal_witness :
    group 1 ⟨['\\', '.'], 0, 0, '\\'⟩ =
      .ok (.terminal (String.singleton '.')) ⟨[], 2, 0, '\\'⟩ :=
  C10_escape_single_terminal '.' [] 0 0 '\\' 0 (by decide) (by decide) (by decide)
    (by decide) (by decide) (by decide)

/-- C1, counterexample: `End` is produced by every diagram generation
(the tree is always wrapped in `Start … End`), its `draw()` is the single
row `"╢END"` of 4 display columns, yet `width()` returns 1 — so "every
row of that list has exactly width() display columns" is false. -/
theorem C1_end_width_counterexample :
    generateDiagram (.element []) = .ok (.sequence [.start, .end']) ∧
    Node.draw .end' = some ["╢END"] ∧
    Node.height .end' = 1 ∧
    ("╢END" : String).length = 4 ∧
    Node.width .end' = 1 ∧
    ("╢END" : String).length ≠ Node.width .end' := by
  refine ⟨rfl, rfl, rfl, rfl, rfl, by decide⟩


/-- `altOkList` is membership-wise `altOk`. -/
theorem altOkList_iff : ∀ v : List RegEx, altOkList v = true ↔ ∀ x ∈ v, altOk x = true := by
  intro v
  induction v with
  | nil => simp [altOkList]
  | cons x xs ih => simp [altOkList, Bool.and_eq_true, ih]

/-- Fuel-indexed invariant: every `RegEx` an `Ok` outcome of the parsing
functions carries has only well-formed alternations (at least two
branches), since `alternation` only builds `Alternation` after seeing a
`'|'` and the loop always appends at least one more branch. -/
theorem parser_altOk (fuel : Nat) :
    (∀ s r s', alternation fuel s = .ok r s' → altOk r = true) ∧
    (∀ v s r s', (∀ x ∈ v, altOk x = true) → 1 ≤ v.length →
      (2 ≤ v.length ∨ (∃ t, s.rest = '|' :: t)) →
      altLoop fuel v s = .ok r s' → altOk r = true) ∧
    (∀ v s r s', (∀ x ∈ v, altOk x = true) →
      elemLoop fuel v s = .ok r s' → altOk r = true) ∧
    (∀ s r s', repetition fuel s = .ok r s' → altOk r = true) ∧
    (∀ s r s', group fuel s = .ok r s' → altOk r = true) ∧
    (∀ acc s r s', litLoop fuel acc s = .ok r s' → altOk r = true) := by
  induction fuel with
  | zero =>
    refine ⟨?_, ?_, ?_, ?_, ?_, ?_⟩
    · intro s r s' h; simp [alternation] at h
    · intro v s r s' _ _ _ h; simp [altLoop] at h
    · intro v s r s' _ h; simp [elemLoop] at h
    · intro s r s' h; simp [repetition] at h
    · intro s r s' h; simp [group] at h
    · intro acc s r s' h; simp [litLoop] at h
  | succ n ih =>
    obtain ⟨ihAlt, ihAltLoop, ihElem, ihRep, ihGroup, ihLit⟩ := ih
    refine ⟨?_, ?_, ?_, ?_, ?_, ?_⟩
    -- alternation
    · intro s r s' h
      cases hE : elemLoop n [] s with
      | ok e1 s1 =>
        simp only [alternation, hE] at h
        have he1 : altOk e1 = true := ihElem [] s e1 s1 (by intro x hx; cases hx) hE
        split at h
        · rename_i t hR
          exact ihAltLoop [e1] s1 r s' (by
            intro x hx
            rcases List.mem_singleton.mp hx with rfl
            exact he1)
            (by simp) (Or.inr ⟨t, hR⟩) h
        · cases h
          exact he1
      | err e => simp only [alternation, hE] at h; cases h
      | panic => simp only [alternation, hE] at h; cases h
      | oof => simp only [alternation, hE] at h; cases h
    -- altLoop
    · intro v s r s' hv hlen hdisj h
      cases hR : s.rest with
      | cons c t =>
        by_cases hc : c = '|'
        · subst hc
          simp only [altLoop, hR] at h
          cases hE : elemLoop n [] (s.adv t) with
          | ok e s2 =>
            rw [hE] at h
            exact ihAltLoop (v ++ [e]) s2 r s'
              (by
                intro x hx
                rcases List.mem_append.mp hx with h1 | h1
                · exact hv x h1
                · rcases List.mem_singleton.mp h1 with rfl
                  exact ihElem [] (s.adv t) _ s2 (by intro y hy; cases hy) hE)
              (by simp) (Or.inl (by simp; omega)) h
          | err e => rw [hE] at h; cases h
          | panic => rw [hE] at h; cases h
          | oof => rw [hE] at h; cases h
        · have h2 : 2 ≤ v.length := by
            rcases hdisj with h1 | ⟨t', hR'⟩
            · exact h1
            · rw [hR] at hR'
              cases hR'
              exact absurd rfl hc
          simp only [altLoop, hR] at h
          split at h
          · rename_i x tail heq
            cases heq
            exact absurd rfl hc
          · cases h
            simp only [altOk, Bool.and_eq_true, decide_eq_true_eq, altOkList_iff]
            exact ⟨h2, hv⟩
      | nil =>
        have h2 : 2 ≤ v.length := by
          rcases hdisj with h1 | ⟨t', hR'⟩
          · exact h1
          · rw [hR] at hR'; cases hR'
        simp only [altLoop, hR] at h
        cases h
        simp only [altOk, Bool.and_eq_true, decide_eq_true_eq, altOkList_iff]
        exact ⟨h2, hv⟩
    -- elemLoop
    · intro v s r s' hv h
      cases hR : s.rest with
      | nil =>
        simp only [elemLoop, hR] at h
        cases h
        simp only [altOk, altOkList_iff]
        exact hv
      | cons c t =>
        simp only [elemLoop, hR] at h
        split at h
        · cases h
          simp only [altOk, altOkList_iff]
          exact hv
        · cases hG : repetition n s with
          | ok r1 s1 =>
            rw [hG] at h
            exact ihElem (v ++ [r1]) s1 r s'
              (by
                intro x hx
                rcases List.mem_append.mp hx with h1 | h1
                · exact hv x h1
                · rcases List.mem_singleton.mp h1 with rfl
                  exact ihRep s _ s1 hG)
              h
          | err e => rw [hG] at h; cases h
          | panic => rw [hG] at h; cases h
          | oof => rw [hG] at h; cases h
    -- repetition
    · intro s r s' h
      cases hG : group n s with
      | ok b s1 =>
        have hb := ihGroup s b s1 hG
        simp only [repetition, hG] at h
        split at h
        · cases h; simpa [altOk] using hb
        · cases h; simpa [altOk] using hb
        · cases h; simpa [altOk] using hb
        · cases hRG : repetitionGroup n s1 with
          | ok rt s2 => rw [hRG] at h; cases h; simpa [altOk] using hb
          | err e => rw [hRG] at h; cases h
          | panic => rw [hRG] at h; cases h
          | oof => rw [hRG] at h; cases h
        · cases h; exact hb
      | err e => simp only [repetition, hG] at h; cases h
      | panic => simp only [repetition, hG] at h; cases h
      | oof => simp only [repetition, hG] at h; cases h
    -- group
    · intro s r s' h
      cases hR : s.rest with
      | nil => simp only [group, hR] at h; cases h
      | cons c t =>
        simp only [group, hR, PState.adv] at h
        split at h
        -- unreachable [] arm of the outer match
        · cases h
        -- '(' branch
        · split at h
          · -- nothing after '(' : panic
            cases h
          · -- '?' :: t2
            split at h
            · -- nothing after '?' : panic
              cases h
            · -- ':' :: t3 : unnamed capture
              split at h
              · rename_i a s4 hA
                split at h
                · cases h
                  simpa [altOk] using ihAlt _ a s4 hA
                · cases h
              · cases h
              · cases h
              · cases h
            · -- '<' :: t3 : named capture
              split at h
              · rename_i nm s4 hN
                split at h
                · -- '>' found
                  split at h
                  · rename_i a s6 hA
                    split at h
                    · cases h
                      simpa [altOk] using ihAlt _ a s6 hA
                    · cases h
                  · cases h
                  · cases h
                  · cases h
                · cases h
                · cases h
              · cases h
              · cases h
              · cases h
            · -- other after '?': invalid character error
              cases h
          · -- plain group: alternation directly
            split at h
            · rename_i a s4 hA
              split at h
              · cases h
                exact ihAlt _ _ s4 hA
              · cases h
            · cases h
            · cases h
            · cases h
        -- '[' branch
        · split at h
          · rename_i a s2 hC
            split at h
            · cases h
              simp [altOk]
            · cases h
          · cases h
          · cases h
          · cases h
        -- backslash branch
        · split at h
          · -- nothing after the backslash : panic
            cases h
          · -- escaped character: the six meta letters or a literal
            repeat' split at h
            all_goals cases h
            all_goals simp [altOk]
        -- '^' branch
        · cases h
          simp [altOk]
        -- '$' branch
        · cases h
          simp [altOk]
        -- '.' branch
        · cases h
          simp [altOk]
        -- literal run
        · exact ihLit _ _ r s' h
    -- litLoop
    · intro acc s r s' h
      cases hR : s.rest with
      | nil =>
        simp only [litLoop, hR] at h
        cases h
        simp [altOk]
      | cons c t =>
        simp only [litLoop, hR] at h
        split at h
        · cases h; simp [altOk]
        · split at h
          · cases t with
            | nil => cases h
            | cons c2 t2 => exact ihLit _ _ r s' h
          · exact ihLit _ _ r s' h

/-- C9: every `Alternation` node occurring anywhere in a successfully
parsed AST holds at least two branches: the parser constructs
`Alternation` only after seeing a `'|'` separator, at which point the
branch vector already holds the first element and gains at least one
more. -/
theorem C9_alternation_min_branches :
    ∀ (text : List Char) (r : RegEx) (s' : PState),
      parse text = .ok r s' → altOk r = true := by
  intro text r s' h
  exact (parser_altOk (10 * text.length + 10)).1 _ r s' h

/-- C9, witness: `"a|b"` parses to a two-branch alternation satisfying
the invariant. -/
theorem C9_alternation_min_branches_witness :
    altOk (.alternation [.element [.terminal "a"], .element [.terminal "b"]]) = true :=
  C9_alternation_min_branches "a|b".toList
    (.alternation [.element [.terminal "a"], .element [.terminal "b"]])
    ⟨[], 3, 0, '\\'⟩ rfl
